import Mathlib

/-!
# Verification of `fetch_usd_rates.py`

A shallow embedding of the script `src/fetch_usd_rates.py` together with
theorems settling the specification's claims about it.

Modelling conventions:

* Calendar dates (`datetime.date` values and the ISO date strings keying the
  provider's per-day quote objects) are modelled as `Nat` day ordinals.  The
  mapping from ISO date strings (fixed-width `YYYY-MM-DD`) to day ordinals is a
  bijection that preserves equality and order (lexicographic order on such
  strings is chronological order), so `sorted(...)` on date strings, date
  arithmetic with `timedelta(days=...)`, and date comparisons all transfer.
* JSON values appearing as quote values are modelled by `JVal`.  Python's
  `isinstance(v, (int, float))` accepts `bool` as well, because `bool` is a
  subclass of `int`; `float(True) = 1.0` and `float(False) = 0.0`.  Numeric
  values are modelled as `Rat`.
* Python `dict`s are modelled as association lists with distinct keys;
  assignment `d[k] = v` overwrites the value in place when the key is present
  (keeping its position) and appends otherwise, exactly like a Python dict
  preserving insertion order.
* Python string operations `str.strip`, `str.upper` and `str.split(",")` are
  implemented character-wise over `String.data` so that they evaluate inside
  the kernel; they agree with the Python functions on the inputs involved.
* The network is an oracle: a fetch attempt's observable outcome is an
  `AttemptOutcome`, one constructor per control path the script distinguishes.
  `session.get` sits *outside* the `try` block in the source, so an exception
  raised by the GET itself propagates immediately; only `raise_for_status` /
  `json()` failures and `success: false` bodies are retried.
-/

namespace FetchUsd

/-! ## Character-level Python string helpers -/

/-- Python `str.split(",")`: split a character list at every comma, keeping
empty pieces, so that the empty string yields one empty piece. -/
def split_char (c : Char) (l : List Char) : List (List Char) :=
  l.foldr (fun ch acc =>
    if ch = c then [] :: acc
    else match acc with
      | [] => [[ch]]
      | h :: t => (ch :: h) :: t) [[]]

/-- Python `s.split(",")` on strings. -/
def py_split_commas (s : String) : List String :=
  (split_char ',' s.data).map String.mk

/-- Python `str.upper` (character-wise uppercasing; agrees with Python on the
ASCII currency codes involved). -/
def py_upper (s : String) : String := String.mk (s.data.map Char.toUpper)

/-- Python `str.strip`: remove leading and trailing whitespace. -/
def py_strip (s : String) : String :=
  String.mk ((s.data.dropWhile Char.isWhitespace).reverse.dropWhile
    Char.isWhitespace).reverse

/-! ## JSON quote values and normalization (`fetch_timeframe`, lines 124-135) -/

/-- A JSON value sitting in a per-day quote object. -/
inductive JVal where
  | num (q : Rat)
  | bool (b : Bool)
  | str (s : String)
  | null
deriving DecidableEq

/-- Python `isinstance(v, (int, float))`.  `bool` is a subclass of `int` in
Python, so booleans pass the check. -/
def is_numeric : JVal → Bool
  | .num _ => true
  | .bool _ => true
  | _ => false

/-- Python `float(v)` on a value that passed `is_numeric`:
`float(True) = 1.0`, `float(False) = 0.0`. -/
def py_float : JVal → Rat
  | .num q => q
  | .bool b => if b then 1 else 0
  | _ => 0

/-- `sym = k[3:] if k.startswith("USD") and len(k) == 6 else k` (line 132). -/
def strip_usd (k : String) : String :=
  if k.data.take 3 = "USD".data ∧ k.data.length = 6 then String.mk (k.data.drop 3)
  else k

/-- Python dict assignment `d[k] = v` on an insertion-ordered association
list: overwrite in place when the key exists, append otherwise. -/
def dict_insert (d : List (String × Rat)) (k : String) (v : Rat) :
    List (String × Rat) :=
  if k ∈ d.map Prod.fst then d.map (fun p => if p.1 = k then (k, v) else p)
  else d ++ [(k, v)]

/-- Python dict lookup `d.get(k)` (keys are unique, so first match wins). -/
def dict_lookup : List (String × Rat) → String → Option Rat
  | [], _ => none
  | p :: rest, k => if p.1 = k then some p.2 else dict_lookup rest k

/-- One iteration of the inner normalization loop (lines 129-133): keep the
entry when its value is numeric, under the stripped key, overwriting any
earlier entry for the same symbol. -/
def norm_step (inner : List (String × Rat)) (kv : String × JVal) :
    List (String × Rat) :=
  if is_numeric kv.2 then dict_insert inner (strip_usd kv.1) (py_float kv.2)
  else inner

/-- The inner loop of the normalization step (lines 127-133): fold the day's
quote object in order starting from the empty dict. -/
def normalize_inner (obj : List (String × JVal)) : List (String × Rat) :=
  obj.foldl norm_step []

/-- Lines 125-134: normalize every day of the response
(`normalized[date_str] = inner`). Dates are day ordinals (see header). -/
def normalize_quotes (quotes : List (Nat × List (String × JVal))) :
    List (Nat × List (String × Rat)) :=
  quotes.map (fun dq => (dq.1, normalize_inner dq.2))

/-! ## `daterange_chunks` (lines 51-59)

The loop `while cur <= end` advances `cur` past the previous chunk's end, so
it performs at most `end + 1 - start` iterations; that quantity is used as
structural fuel.  `max_span = timedelta(days=max_span_days - 1)` is the
inclusive window size.  The model is faithful for `max_span_days ≥ 1` (for
smaller values the Python generator never terminates, and every claim assumes
`max_span_days ≥ 1`). -/

/-- Loop body of `daterange_chunks`, with fuel bounding the iteration count. -/
def chunks_go (stop maxSpan : Nat) : Nat → Nat → List (Nat × Nat)
  | _, 0 => []
  | cur, fuel + 1 =>
    if cur ≤ stop then
      (cur, min (cur + maxSpan) stop) ::
        chunks_go stop maxSpan (min (cur + maxSpan) stop + 1) fuel
    else []

/-- `daterange_chunks(start, end, max_span_days)` as a list of inclusive
`(chunk_start, chunk_end)` pairs. -/
def daterange_chunks (start stop max_span_days : Nat) : List (Nat × Nat) :=
  chunks_go stop (max_span_days - 1) start (stop + 1 - start)

/-! ## The retry loop of `fetch_timeframe` (lines 96-137)

One loop iteration issues one GET.  Its observable outcome, as far as the
script's control flow is concerned, is one of:

* `getRaise`   — `session.get` itself raises (network/transport failure).
  This call sits *outside* the `try`, so the exception propagates at once.
* `httpError`  — `resp.raise_for_status()` or `resp.json()` raises inside the
  `try`: retried, and re-raised (bare `raise`) on the last attempt.
* `apiError`   — body parsed but `success` is falsy: retried, and turned into
  `RuntimeError(f"/timeframe error: {info}")` on the last attempt.
* `badShape`   — `success` truthy but neither `quotes` nor `rates` present:
  `RuntimeError` raised immediately, no retry.
* `ok`         — `success` truthy with a quotes/rates dict: normalized and
  returned. -/

/-- Observable outcome of one request attempt. -/
inductive AttemptOutcome where
  | getRaise (e : String)
  | httpError (e : String)
  | apiError (info : String)
  | badShape
  | ok (quotes : List (Nat × List (String × JVal)))

/-- An exception escaping a function of the script. -/
inductive PyError where
  | transport (e : String)
  | runtime (msg : String)
  | envError (msg : String)
deriving DecidableEq

/-- Result of a whole `fetch_timeframe` call. -/
inductive FetchResult where
  | ok (q : List (Nat × List (String × Rat)))
  | raised (e : PyError)
deriving DecidableEq

/-- A `fetch_timeframe` run: its result, the `time.sleep` durations performed
(in order), and the number of GET requests issued. -/
structure FetchRun where
  result : FetchResult
  sleeps : List Nat
  requests : Nat

/-- `for attempt in range(3)` body; the remaining attempt indices drive the
recursion, so the whole loop is `fetch_from responses [0, 1, 2] [] 0`. -/
def fetch_from (responses : Nat → AttemptOutcome) :
    List Nat → List Nat → Nat → FetchRun
  | [], sleeps, reqs => ⟨.raised (.runtime "Unreachable"), sleeps, reqs⟩
  | attempt :: rest, sleeps, reqs =>
    match responses attempt with
    | .getRaise e => ⟨.raised (.transport e), sleeps, reqs + 1⟩
    | .httpError e =>
      if attempt = 2 then ⟨.raised (.transport e), sleeps, reqs + 1⟩
      else fetch_from responses rest (sleeps ++ [2 ^ attempt]) (reqs + 1)
    | .apiError info =>
      if attempt = 2 then
        ⟨.raised (.runtime ("/timeframe error: " ++ info)), sleeps, reqs + 1⟩
      else fetch_from responses rest (sleeps ++ [2 ^ attempt]) (reqs + 1)
    | .badShape => ⟨.raised (.runtime "Unexpected /timeframe payload shape"), sleeps, reqs + 1⟩
    | .ok quotes => ⟨.ok (normalize_quotes quotes), sleeps, reqs + 1⟩

/-- One `fetch_timeframe` call against the attempt oracle `responses`. -/
def fetch_timeframe_run (responses : Nat → AttemptOutcome) : FetchRun :=
  fetch_from responses [0, 1, 2] [] 0

/-- The attempt outcomes the loop reacts to by sleeping and retrying. -/
def retry_trigger : AttemptOutcome → Bool
  | .httpError _ => true
  | .apiError _ => true
  | _ => false

/-! ## Symbol resolution (lines 174-181) -/

/-- The explicit-list branch of symbol resolution:
`[s.strip().upper() for s in symbols_arg.split(",") if s.strip()]`,
then append `"USD"` when absent. -/
def resolve_symbols (symbols_arg : String) : List String :=
  let symbols := ((py_split_commas symbols_arg).filter
    (fun s => py_strip s ≠ "")).map (fun s => py_upper (py_strip s))
  if "USD" ∈ symbols then symbols else symbols ++ ["USD"]

/-! ## The pipeline (`main`, lines 153-217) -/

/-- One row prepared for upsert (lines 192-199). -/
structure Row where
  rate_date : Nat
  base_currency : String
  symbol : String
  rate : Rat
  provider : String
deriving DecidableEq

/-- The configuration read from `config.yaml`. -/
structure Config where
  start : Nat
  stop : Nat
  symbols_arg : String
  table : String
  batch_days : Nat
  upsert_batch_size : Nat
  dry_run : Bool

/-- The three environment secrets, as `os.environ.get` sees them. -/
structure Env where
  supabase_url : Option String
  supabase_service_role_key : Option String
  exchangerate_host_key : Option String

/-- Python truthiness of `os.environ.get(...)`: `None` and `""` are falsy. -/
def truthy : Option String → Bool
  | none => false
  | some s => !(s == "")

/-- Externally observable side effects of a run, in order. -/
inductive Event where
  | providerFetch (chunk_start chunk_stop : Nat)
  | catalogFetch
  | storeUpsert (table : String) (batch : List Row)
deriving DecidableEq

/-- How the process ends: `sys.exit(msg)` (non-zero), an uncaught exception
(non-zero), or normal completion (zero) with its printed row counts. -/
inductive Outcome where
  | exitError (msg : String)
  | raised (e : PyError)
  | done (rows_prepared rows_written : Nat)
deriving DecidableEq

/-- Lines 189-200: `for date_str, inner in sorted(data.items())` and the inner
loop over `inner.items()` building one `Row` per (date, symbol) quote. -/
def rows_of_quotes (q : List (Nat × List (String × Rat))) : List Row :=
  (List.insertionSort (fun a b => a.1 ≤ b.1) q).flatMap
    (fun di => di.2.map (fun sr => ⟨di.1, "USD", sr.1, sr.2, "exchangerate.host"⟩))

/-- Lines 186-202: fetch every chunk in order, accumulating rows; a raise in
`fetch_timeframe` aborts the loop.  `provider i` is the attempt oracle for the
`i`-th chunk.  Also records the fetch events performed. -/
def fetch_loop : (Nat → Nat → AttemptOutcome) → List (Nat × Nat) →
    Except PyError (List Row) × List Event
  | _, [] => (.ok [], [])
  | provider, c :: rest =>
    match (fetch_timeframe_run (provider 0)).result with
    | .raised e => (.error e, [Event.providerFetch c.1 c.2])
    | .ok q =>
      match fetch_loop (fun i => provider (i + 1)) rest with
      | (.ok rows, evs) =>
        (.ok (rows_of_quotes q ++ rows), .providerFetch c.1 c.2 :: evs)
      | (.error e, evs) => (.error e, .providerFetch c.1 c.2 :: evs)

/-- `chunked(iterable, size)` (lines 148-150): slices
`iterable[i : i + size]` for `i in range(0, len(iterable), size)`.  Faithful
for `size ≥ 1` (Python raises `ValueError` on step 0; `main` always passes a
positive batch size). -/
def chunked (rows : List Row) (size : Nat) : List (List Row) :=
  (List.range ((rows.length + size - 1) / size)).map
    (fun j => (rows.drop (j * size)).take size)

/-- Lines 204-217: what happens after all chunks fetched successfully into
`all_rows` — report and stop in dry-run; otherwise construct the Supabase
client (`supabase_client`, lines 140-145, raising `EnvironmentError` when
either store secret is missing/empty) and upsert batch by batch. -/
def run_store_phase (cfg : Config) (env : Env) (all_rows : List Row) :
    Outcome × List Event :=
  if cfg.dry_run then (.done all_rows.length 0, [])
  else if truthy env.supabase_url && truthy env.supabase_service_role_key then
    (.done all_rows.length
      ((chunked all_rows cfg.upsert_batch_size).foldl (fun t b => t + b.length) 0),
     (chunked all_rows cfg.upsert_batch_size).map (fun b => Event.storeUpsert cfg.table b))
  else
    (.raised (.envError
      "Set SUPABASE_URL and SUPABASE_SERVICE_ROLE_KEY in your environment or .env"), [])

/-- Lines 183-217: the chunk-fetching loop followed by the store phase. -/
def run_fetch_phase (cfg : Config) (env : Env)
    (provider : Nat → Nat → AttemptOutcome) : Outcome × List Event :=
  match fetch_loop provider (daterange_chunks cfg.start cfg.stop cfg.batch_days) with
  | (.error e, evs) => (.raised e, evs)
  | (.ok all_rows, evs) =>
    ((run_store_phase cfg env all_rows).1, evs ++ (run_store_phase cfg env all_rows).2)

/-- `main()` (lines 153-217) over a config, an environment, a catalog-call
oracle (`get_all_symbols`, consulted only for `symbols = "ALL"`) and a
per-chunk attempt oracle.  Returns the process outcome and the ordered trace
of external effects.  In explicit-list mode the resolved symbol list
(`resolve_symbols`, lines 178-181) only feeds the request parameters, which
the attempt oracle abstracts, so it does not appear in the observable
behaviour here. -/
def run_main (cfg : Config) (env : Env) (catalog : Except PyError (List String))
    (provider : Nat → Nat → AttemptOutcome) : Outcome × List Event :=
  if cfg.stop < cfg.start then (.exitError "End date must be on/after start date", [])
  else if truthy env.exchangerate_host_key then
    if py_upper (py_strip cfg.symbols_arg) = "ALL" then
      match catalog with
      | .error e => (.raised e, [Event.catalogFetch])
      | .ok _symbols =>
        ((run_fetch_phase cfg env provider).1,
         Event.catalogFetch :: (run_fetch_phase cfg env provider).2)
    else run_fetch_phase cfg env provider
  else (.exitError "Missing EXCHANGERATE_HOST_KEY in .env", [])

/-- The row list accumulated by a run whose fetches all succeed (empty when
some fetch raises; used only to phrase theorems). -/
def prepared_rows (cfg : Config) (provider : Nat → Nat → AttemptOutcome) :
    List Row :=
  match (fetch_loop provider (daterange_chunks cfg.start cfg.stop cfg.batch_days)).1 with
  | .ok rows => rows
  | .error _ => []

/-- The normalized quotes a chunk's fetch returns (empty when it raises;
used only to phrase theorems). -/
def chunk_quotes (provider : Nat → Nat → AttemptOutcome) (i : Nat) :
    List (Nat × List (String × Rat)) :=
  match (fetch_timeframe_run (provider i)).result with
  | .ok q => q
  | .raised _ => []

/-- `Event.storeUpsert` discriminator. -/
def isStore : Event → Bool
  | .storeUpsert _ _ => true
  | _ => false

/-- Two rows differ on the natural key `(rate_date, base_currency, symbol)`. -/
def key_distinct (r1 r2 : Row) : Prop :=
  ¬(r1.rate_date = r2.rate_date ∧ r1.base_currency = r2.base_currency ∧
    r1.symbol = r2.symbol)

/-! ## Spec-side definitions

These two definitions follow the specification's words (not the code) and are
compared with the code-derived normalization in the claim about
`fetch_timeframe`'s response-shape tolerance. -/

/-- Spec wording: "a 6-character key beginning with the base code contributes
its *last 3 characters* as the symbol; any other key contributes itself". -/
def spec_key_symbol (k : String) : String :=
  if k.data.length = 6 ∧ k.data.take 3 = "USD".data then
    String.mk (k.data.reverse.take 3).reverse
  else k

/-- Scan a list of raw entries for the first numeric one whose key maps to
`sym`, per the spec's key-to-symbol rule. -/
def spec_scan (sym : String) : List (String × JVal) → Option Rat
  | [] => none
  | kv :: rest =>
    if spec_key_symbol kv.1 = sym ∧ is_numeric kv.2 = true then some (py_float kv.2)
    else spec_scan sym rest

/-- Spec wording: the rate recorded for a symbol on a day is the value of the
*last-processed* numeric entry whose key maps to that symbol (last-seen wins);
absent when no such entry exists. -/
def spec_last_seen (obj : List (String × JVal)) (sym : String) : Option Rat :=
  spec_scan sym obj.reverse

/-- Total number of (date, symbol) quote entries in a normalized response. -/
def quotes_count (q : List (Nat × List (String × Rat))) : Nat :=
  (q.map (fun dq => dq.2.length)).sum

/-! ## Lemmas about `daterange_chunks` -/

lemma chunks_go_mem {stop m : Nat} :
    ∀ (fuel cur : Nat) (c : Nat × Nat), c ∈ chunks_go stop m cur fuel →
      cur ≤ c.1 ∧ c.1 ≤ c.2 ∧ c.2 ≤ stop ∧ c.2 ≤ c.1 + m := by
  intro fuel
  induction fuel with
  | zero => intro cur c hc; simp [chunks_go] at hc
  | succ n ih =>
    intro cur c hc
    simp only [chunks_go] at hc
    split at hc
    · rcases List.mem_cons.mp hc with rfl | hc
      · dsimp only
        omega
      · have := ih _ _ hc
        omega
    · simp at hc

lemma chunks_go_head_fst {stop m fuel cur : Nat} :
    ∀ c ∈ (chunks_go stop m cur fuel).head?, c.1 = cur := by
  cases fuel with
  | zero => simp [chunks_go]
  | succ n =>
    simp only [chunks_go]
    split
    · simp
    · simp

lemma chunks_go_chain {stop m : Nat} :
    ∀ (fuel cur : Nat), List.Chain' (fun a b => b.1 = a.2 + 1) (chunks_go stop m cur fuel) := by
  intro fuel
  induction fuel with
  | zero => intro cur; simp [chunks_go]
  | succ n ih =>
    intro cur
    simp only [chunks_go]
    split
    · exact List.chain'_cons'.mpr ⟨fun y hy => chunks_go_head_fst y hy, ih _⟩
    · simp

lemma chunks_go_pairwise {stop m : Nat} :
    ∀ (fuel cur : Nat), List.Pairwise (fun a b => a.2 < b.1) (chunks_go stop m cur fuel) := by
  intro fuel
  induction fuel with
  | zero => intro cur; simp [chunks_go]
  | succ n ih =>
    intro cur
    simp only [chunks_go]
    split
    · refine List.pairwise_cons.mpr ⟨fun c hc => ?_, ih _⟩
      have := chunks_go_mem _ _ _ hc
      omega
    · simp

lemma chunks_go_cover {stop m : Nat} :
    ∀ (fuel cur : Nat), stop + 1 - cur ≤ fuel →
      ∀ d, (∃ c ∈ chunks_go stop m cur fuel, c.1 ≤ d ∧ d ≤ c.2) ↔ (cur ≤ d ∧ d ≤ stop) := by
  intro fuel
  induction fuel with
  | zero =>
    intro cur hf d
    simp only [chunks_go]
    simp
    omega
  | succ n ih =>
    intro cur hf d
    simp only [chunks_go]
    split
    case isTrue h =>
      have hrec := ih (min (cur + m) stop + 1) (by omega) d
      constructor
      · rintro ⟨c, hc, hd⟩
        rcases List.mem_cons.mp hc with rfl | hc
        · simp only [] at hd
          omega
        · have := hrec.mp ⟨c, hc, hd⟩
          omega
      · intro hd
        by_cases hcd : d ≤ min (cur + m) stop
        · exact ⟨(cur, min (cur + m) stop), List.mem_cons_self _ _, by omega, by omega⟩
        · obtain ⟨c, hc, h1, h2⟩ := hrec.mpr (by omega)
          exact ⟨c, List.mem_cons_of_mem _ hc, h1, h2⟩
    case isFalse h =>
      simp
      omega

/-- **C1.** For every `start ≤ stop` and `max_span_days ≥ 1`,
`daterange_chunks` yields a nonempty sequence of chunks that is contiguous
(each chunk starts exactly one day after the previous chunk ends), ordered
ascending and non-overlapping, with every chunk well-formed and spanning at
most `max_span_days` calendar days, covering exactly the inclusive interval
`[start, stop]`; and `start = stop` yields exactly one single-day chunk
regardless of `max_span_days`. -/
theorem daterange_chunks_partition (start stop m : Nat)
    (hse : start ≤ stop) (hm : 1 ≤ m) :
    daterange_chunks start stop m ≠ [] ∧
    List.Chain' (fun a b => b.1 = a.2 + 1) (daterange_chunks start stop m) ∧
    List.Pairwise (fun a b => a.2 < b.1) (daterange_chunks start stop m) ∧
    (∀ c ∈ daterange_chunks start stop m, c.1 ≤ c.2 ∧ c.2 + 1 - c.1 ≤ m) ∧
    (∀ d, (∃ c ∈ daterange_chunks start stop m, c.1 ≤ d ∧ d ≤ c.2) ↔
      (start ≤ d ∧ d ≤ stop)) ∧
    (start = stop → daterange_chunks start stop m = [(start, start)]) := by
  unfold daterange_chunks
  refine ⟨?_, chunks_go_chain _ _, chunks_go_pairwise _ _, ?_, ?_, ?_⟩
  · rw [show stop + 1 - start = (stop - start) + 1 from by omega]
    simp only [chunks_go]
    rw [if_pos hse]
    exact List.cons_ne_nil _ _
  · intro c hc
    have := chunks_go_mem _ _ _ hc
    omega
  · exact chunks_go_cover _ _ (by omega)
  · intro h
    subst h
    rw [show start + 1 - start = 1 from by omega]
    simp only [chunks_go, if_pos (le_refl start)]
    rw [Nat.min_eq_right (by omega : start ≤ start + (m - 1))]

/-- Concrete instantiation of the chunking theorem. -/
theorem daterange_chunks_partition_witness :
    (0 : Nat) ≤ 5 ∧ (1 : Nat) ≤ 2 ∧ daterange_chunks 0 5 2 ≠ [] :=
  ⟨by decide, by decide, (daterange_chunks_partition 0 5 2 (by decide) (by decide)).1⟩

/-! ## Lemmas about quote normalization -/

lemma dict_lookup_not_mem (k : String) :
    ∀ d : List (String × Rat), k ∉ d.map Prod.fst → dict_lookup d k = none
  | [], _ => rfl
  | p :: rest, h => by
    simp only [List.map_cons, List.mem_cons, not_or] at h
    rw [dict_lookup, if_neg (fun he => h.1 he.symm)]
    exact dict_lookup_not_mem k rest h.2

lemma dict_lookup_overwrite (k : String) (v : Rat) :
    ∀ d : List (String × Rat), k ∈ d.map Prod.fst →
      dict_lookup (d.map (fun p => if p.1 = k then (k, v) else p)) k = some v
  | [], h => by simp at h
  | p :: rest, h => by
    by_cases hp : p.1 = k
    · simp [dict_lookup, hp]
    · have hk : k ∈ rest.map Prod.fst := by
        simp only [List.map_cons, List.mem_cons] at h
        rcases h with h | h
        · exact absurd h.symm hp
        · exact h
      rw [List.map_cons, if_neg hp, dict_lookup, if_neg hp]
      exact dict_lookup_overwrite k v rest hk

lemma dict_lookup_overwrite_ne (k k2 : String) (v : Rat) (hne : k2 ≠ k) :
    ∀ d : List (String × Rat),
      dict_lookup (d.map (fun p => if p.1 = k then (k, v) else p)) k2 = dict_lookup d k2
  | [] => rfl
  | p :: rest => by
    by_cases hp : p.1 = k
    · rw [List.map_cons, if_pos hp, dict_lookup, dict_lookup,
        if_neg (fun h => hne h.symm), if_neg (fun h => hne (hp ▸ h).symm)]
      exact dict_lookup_overwrite_ne k k2 v hne rest
    · rw [List.map_cons, if_neg hp, dict_lookup, dict_lookup]
      by_cases hp2 : p.1 = k2
      · rw [if_pos hp2, if_pos hp2]
      · rw [if_neg hp2, if_neg hp2]
        exact dict_lookup_overwrite_ne k k2 v hne rest

lemma dict_lookup_append_single (k k2 : String) (v : Rat) :
    ∀ d : List (String × Rat),
      dict_lookup (d ++ [(k, v)]) k2 =
        (dict_lookup d k2).or (if k = k2 then some v else none)
  | [] => by simp only [List.nil_append, dict_lookup, Option.none_or]
  | p :: rest => by
    simp only [List.cons_append, dict_lookup]
    by_cases hp : p.1 = k2
    · rw [if_pos hp, if_pos hp]
      rfl
    · rw [if_neg hp, if_neg hp]
      exact dict_lookup_append_single k k2 v rest

lemma dict_lookup_insert_self (d : List (String × Rat)) (k : String) (v : Rat) :
    dict_lookup (dict_insert d k v) k = some v := by
  unfold dict_insert
  split
  case isTrue h => exact dict_lookup_overwrite k v d h
  case isFalse h =>
    rw [dict_lookup_append_single, if_pos rfl, dict_lookup_not_mem k d h]
    rfl

lemma dict_lookup_insert_ne (d : List (String × Rat)) (k k2 : String) (v : Rat)
    (hne : k2 ≠ k) : dict_lookup (dict_insert d k v) k2 = dict_lookup d k2 := by
  unfold dict_insert
  split
  · exact dict_lookup_overwrite_ne k k2 v hne d
  · rw [dict_lookup_append_single, if_neg (fun h => hne h.symm), Option.or_none]

lemma spec_key_symbol_eq_strip_usd (k : String) : spec_key_symbol k = strip_usd k := by
  unfold spec_key_symbol strip_usd
  by_cases h1 : k.data.take 3 = "USD".data
  · by_cases h2 : k.data.length = 6
    · rw [if_pos ⟨h2, h1⟩, if_pos ⟨h1, h2⟩, List.take_reverse, List.reverse_reverse, h2]
    · rw [if_neg (by tauto), if_neg (by tauto)]
  · rw [if_neg (by tauto), if_neg (by tauto)]

lemma spec_scan_append (sym : String) :
    ∀ l1 l2 : List (String × JVal),
      spec_scan sym (l1 ++ l2) = (spec_scan sym l1).or (spec_scan sym l2)
  | [], l2 => by rw [List.nil_append, spec_scan, Option.none_or]
  | kv :: rest, l2 => by
    rw [List.cons_append, spec_scan, spec_scan]
    split
    · rfl
    · exact spec_scan_append sym rest l2

lemma norm_step_lookup (d : List (String × Rat)) (kv : String × JVal) (sym : String) :
    dict_lookup (norm_step d kv) sym = (spec_scan sym [kv]).or (dict_lookup d sym) := by
  rw [norm_step, spec_scan, spec_scan, spec_key_symbol_eq_strip_usd]
  by_cases hn : is_numeric kv.2 = true
  · rw [if_pos hn]
    by_cases hs : strip_usd kv.1 = sym
    · rw [if_pos ⟨hs, hn⟩, hs, dict_lookup_insert_self]
      rfl
    · rw [if_neg (by tauto), dict_lookup_insert_ne _ _ _ _ (fun h => hs h.symm),
        Option.none_or]
  · rw [if_neg (by simp [hn]), if_neg (by tauto), Option.none_or]

lemma normalize_foldl_lookup (sym : String) :
    ∀ (obj : List (String × JVal)) (d : List (String × Rat)),
      dict_lookup (obj.foldl norm_step d) sym =
        (spec_scan sym obj.reverse).or (dict_lookup d sym)
  | [], d => by rw [List.foldl_nil, List.reverse_nil, spec_scan, Option.none_or]
  | kv :: rest, d => by
    rw [List.foldl_cons, List.reverse_cons, spec_scan_append,
      normalize_foldl_lookup sym rest (norm_step d kv), norm_step_lookup,
      Option.or_assoc]

/-- **C2.** `fetch_timeframe`'s per-day normalization: the rate recorded for a
symbol is exactly the spec's "last-seen wins" rule — a 6-character key
beginning with `"USD"` contributes its last three characters as the symbol,
any other key contributes itself, non-numeric values are silently dropped —
and on the spec's example day object the result is exactly one `EUR` entry
holding the later value `0.91` with no `note` entry. -/
theorem fetch_normalization (obj : List (String × JVal)) (sym : String) :
    dict_lookup (normalize_inner obj) sym = spec_last_seen obj sym ∧
    normalize_inner [("USDEUR", .num 0.9), ("EUR", .num 0.91), ("note", .str "x")]
      = [("EUR", 0.91)] := by
  constructor
  · rw [normalize_inner, normalize_foldl_lookup, spec_last_seen, dict_lookup,
      Option.or_none]
  · rfl

/-- **C10.** A boolean quote value passes the `isinstance(v, (int, float))`
filter (Python `bool` is a subclass of `int`) and is recorded as rate `1.0`
or `0.0` rather than dropped: appending a boolean-valued entry to any day
object makes its symbol present with that rate. -/
theorem bool_quote_admitted (pre : List (String × JVal)) (k : String) (b : Bool) :
    dict_lookup (normalize_inner (pre ++ [(k, JVal.bool b)])) (strip_usd k) =
      some (if b then 1 else 0) ∧
    normalize_inner [("verified", .bool true)] = [("verified", 1)] := by
  refine ⟨?_, rfl⟩
  rw [normalize_inner, normalize_foldl_lookup, List.reverse_append,
    List.reverse_singleton, List.singleton_append, spec_scan,
    if_pos ⟨spec_key_symbol_eq_strip_usd k, rfl⟩]
  rfl

/-! ## Lemmas about the retry loop -/

lemma fetch_from_last (responses : Nat → AttemptOutcome) (sleeps : List Nat)
    (reqs : Nat) : (fetch_from responses [2] sleeps reqs).sleeps = sleeps ∧
      (fetch_from responses [2] sleeps reqs).requests = reqs + 1 := by
  cases h : responses 2 <;> simp [fetch_from, h]

lemma fetch_from_step0 (responses : Nat → AttemptOutcome)
    (h0 : retry_trigger (responses 0) = true) :
    fetch_from responses [0, 1, 2] [] 0 = fetch_from responses [1, 2] [1] 1 := by
  cases hr0 : responses 0
  case httpError e => simp [fetch_from, hr0]
  case apiError i => simp [fetch_from, hr0]
  all_goals rw [hr0] at h0
  all_goals simp [retry_trigger] at h0

lemma fetch_from_step1 (responses : Nat → AttemptOutcome)
    (h1 : retry_trigger (responses 1) = true) :
    fetch_from responses [1, 2] [1] 1 = fetch_from responses [2] [1, 2] 2 := by
  cases hr1 : responses 1
  case httpError e => simp [fetch_from, hr1]
  case apiError i => simp [fetch_from, hr1]
  all_goals rw [hr1] at h1
  all_goals simp [retry_trigger] at h1

lemma fetch_requests_le_three (rs : Nat → AttemptOutcome) :
    (fetch_timeframe_run rs).requests ≤ 3 := by
  cases h0 : rs 0 <;> cases h1 : rs 1 <;> cases h2 : rs 2 <;>
    simp [fetch_timeframe_run, fetch_from, h0, h1, h2]

/-- **C3 (counterexample).** On a fetch whose three attempts all fail with the
retried `success=false` condition (e.g. rate limiting), the sleeps performed
are `2 ** attempt` for 0-based `attempt = 0, 1`, i.e. `[1, 2]`: the sleep
before the second attempt is 1 second, not 0, and the total slept is 3
seconds, not the `0 + 2 + 4` pattern the claim states. -/
theorem retry_backoff_claim_cex :
    (fetch_timeframe_run (fun _ => .apiError "rate limit")).sleeps = [1, 2] ∧
    (fetch_timeframe_run (fun _ => .apiError "rate limit")).sleeps ≠ [0, 2] ∧
    ((fetch_timeframe_run (fun _ => .apiError "rate limit")).sleeps).sum ≠ 0 + 2 + 4 :=
  ⟨by decide, by decide, by decide⟩

/-- **C3 (amended).** Between successive retry attempts `fetch_timeframe`
sleeps `2 ** attempt` seconds with `attempt` counted from 0: 1 second before
the second attempt and 2 seconds before the third, so a fetch whose first two
attempts fail with a retried condition sleeps `[1, 2]` — 3 seconds in total —
whatever the third attempt does. -/
theorem retry_backoff_schedule (responses : Nat → AttemptOutcome)
    (h0 : retry_trigger (responses 0) = true)
    (h1 : retry_trigger (responses 1) = true) :
    (fetch_timeframe_run responses).sleeps = [1, 2] ∧
    ((fetch_timeframe_run responses).sleeps).sum = 3 := by
  have key : (fetch_timeframe_run responses).sleeps = [1, 2] := by
    rw [fetch_timeframe_run, fetch_from_step0 responses h0,
      fetch_from_step1 responses h1]
    exact (fetch_from_last responses [1, 2] 2).1
  exact ⟨key, by rw [key]; rfl⟩

/-- Concrete instantiation of the amended backoff theorem. -/
theorem retry_backoff_schedule_witness :
    (fetch_timeframe_run (fun _ => AttemptOutcome.apiError "rate limit")).sleeps
      = [1, 2] :=
  (retry_backoff_schedule (fun _ => .apiError "rate limit") rfl rfl).1

/-- **C4 (counterexample).** A network/transport failure — `session.get`
itself raising, the call sitting outside the `try` block — is *not* a retry
trigger: the very first such failure propagates after a single request, so a
fetch failing on every attempt with a transport failure raises after 1
attempt, not 3. -/
theorem fetch_retry_claim_cex :
    (fetch_timeframe_run (fun _ => .getRaise "ConnectionError")).requests = 1 ∧
    (fetch_timeframe_run (fun _ => .getRaise "ConnectionError")).requests ≠ 3 ∧
    (fetch_timeframe_run (fun _ => .getRaise "ConnectionError")).result =
      .raised (.transport "ConnectionError") :=
  ⟨by decide, by decide, by decide⟩

/-- **C4 (amended).** `fetch_timeframe` makes at most 3 request attempts, and
when every attempt fails with one of the conditions the loop actually retries
— an HTTP-status/JSON failure inside the `try`, or a `success=false` body —
it raises after exactly 3 attempts, carrying the last attempt's error detail,
and never returns a value.  (A transport failure in the GET itself instead
propagates immediately without retry, see the counterexample.) -/
theorem fetch_retry_exhaustion (responses : Nat → AttemptOutcome)
    (h0 : retry_trigger (responses 0) = true)
    (h1 : retry_trigger (responses 1) = true)
    (h2 : retry_trigger (responses 2) = true) :
    (fetch_timeframe_run responses).requests = 3 ∧
    (∀ q, (fetch_timeframe_run responses).result ≠ .ok q) ∧
    (∀ e, responses 2 = .httpError e →
      (fetch_timeframe_run responses).result = .raised (.transport e)) ∧
    (∀ info, responses 2 = .apiError info →
      (fetch_timeframe_run responses).result =
        .raised (.runtime ("/timeframe error: " ++ info))) ∧
    (∀ rs : Nat → AttemptOutcome, (fetch_timeframe_run rs).requests ≤ 3) := by
  have hrun : fetch_timeframe_run responses = fetch_from responses [2] [1, 2] 2 := by
    rw [fetch_timeframe_run, fetch_from_step0 responses h0,
      fetch_from_step1 responses h1]
  cases hr2 : responses 2
  case httpError e =>
    refine ⟨?_, ?_, ?_, ?_, fetch_requests_le_three⟩ <;>
      simp [hrun, fetch_from, hr2]
  case apiError i =>
    refine ⟨?_, ?_, ?_, ?_, fetch_requests_le_three⟩ <;>
      simp [hrun, fetch_from, hr2]
  all_goals rw [hr2] at h2
  all_goals simp [retry_trigger] at h2

/-- Concrete instantiation of the amended retry-exhaustion theorem. -/
theorem fetch_retry_exhaustion_witness :
    (fetch_timeframe_run (fun _ => AttemptOutcome.httpError "503")).requests = 3 :=
  (fetch_retry_exhaustion (fun _ => .httpError "503") rfl rfl rfl).1

/-! ## Symbol resolution -/

/-- **C5 (counterexample).** Explicit-list symbol resolution does not
deduplicate: the input `"EUR,eur"` resolves to a list containing `EUR`
twice. -/
theorem resolve_symbols_dedup_cex :
    resolve_symbols "EUR,eur" = ["EUR", "EUR", "USD"] ∧
    ¬(resolve_symbols "EUR,eur").Nodup :=
  ⟨by decide, by decide⟩

/-- **C5 (amended).** Explicit-list symbol resolution parses the
comma-separated, case-insensitive input, trims and uppercases each item,
drops empty items, preserves order and multiplicity (so duplicated input
codes survive — no deduplication), and appends the base currency `USD`
exactly when absent, so `USD` is always present; on the spec's duplicate-free
example inputs the result is exactly the stated set, without duplicates. -/
theorem resolve_symbols_amended :
    resolve_symbols "cad, eur, USD" = ["CAD", "EUR", "USD"] ∧
    resolve_symbols "CAD" = ["CAD", "USD"] ∧
    (resolve_symbols "cad, eur, USD").Nodup ∧
    (resolve_symbols "CAD").Nodup ∧
    ∀ arg : String, "USD" ∈ resolve_symbols arg := by
  refine ⟨by decide, by decide, by decide, by decide, fun arg => ?_⟩
  simp only [resolve_symbols]
  split
  case isTrue h => exact h
  case isFalse h => exact List.mem_append_right _ (List.mem_singleton_self _)

/-! ## Lemmas about the pipeline -/

lemma fetch_loop_events :
    ∀ (cl : List (Nat × Nat)) (provider : Nat → Nat → AttemptOutcome),
      ∀ ev ∈ (fetch_loop provider cl).2, isStore ev = false
  | [], _ => by
    intro ev hev
    simp [fetch_loop] at hev
  | c :: rest, provider => by
    intro ev hev
    simp only [fetch_loop] at hev
    cases hres : (fetch_timeframe_run (provider 0)).result
    case raised e =>
      rw [hres] at hev
      simp at hev
      subst hev
      rfl
    case ok q =>
      rw [hres] at hev
      cases hl : fetch_loop (fun i => provider (i + 1)) rest with
      | mk res evs =>
        rw [hl] at hev
        have hev2 : ev = Event.providerFetch c.1 c.2 ∨ ev ∈ evs := by
          cases res <;> simpa using hev
        rcases hev2 with rfl | hev2
        · rfl
        · exact fetch_loop_events rest (fun i => provider (i + 1)) ev (by rw [hl]; exact hev2)

lemma fetch_loop_ok_all :
    ∀ (cl : List (Nat × Nat)) (provider : Nat → Nat → AttemptOutcome)
      (rows : List Row), (fetch_loop provider cl).1 = .ok rows →
      ∀ i, i < cl.length → ∃ q, (fetch_timeframe_run (provider i)).result = .ok q
  | [], _, _, _ => by
    intro i hi
    simp at hi
  | c :: rest, provider, rows, h => by
    intro i hi
    simp only [fetch_loop] at h
    cases hres : (fetch_timeframe_run (provider 0)).result
    case raised e =>
      rw [hres] at h
      simp at h
    case ok q =>
      rw [hres] at h
      cases i with
      | zero => exact ⟨q, hres⟩
      | succ j =>
        cases hl : fetch_loop (fun i => provider (i + 1)) rest with
        | mk res evs =>
          rw [hl] at h
          cases res
          case error e => simp at h
          case ok rows2 =>
            exact fetch_loop_ok_all rest (fun i => provider (i + 1)) rows2
              (by rw [hl]) j (by simpa using hi)

/-- After a run whose fetch phase cannot succeed, no store upsert appears in
the trace and the outcome is not a normal completion. -/
lemma run_fetch_phase_no_ok (cfg : Config) (env : Env)
    (provider : Nat → Nat → AttemptOutcome)
    (herr : ∀ rows, (fetch_loop provider
      (daterange_chunks cfg.start cfg.stop cfg.batch_days)).1 ≠ .ok rows) :
    (∀ ev ∈ (run_fetch_phase cfg env provider).2, isStore ev = false) ∧
    (∀ p w, (run_fetch_phase cfg env provider).1 ≠ .done p w) := by
  rw [run_fetch_phase]
  cases hl : fetch_loop provider (daterange_chunks cfg.start cfg.stop cfg.batch_days) with
  | mk res evs =>
    cases res
    case ok rows => exact absurd (by rw [hl]) (herr rows)
    case error e =>
      refine ⟨fun ev hev => ?_, fun p w h => by simp at h⟩
      exact fetch_loop_events _ provider ev (by rw [hl]; simpa using hev)

/-- Lift a "no store upsert, no normal completion" fact about the fetch phase
through the whole of `main`. -/
lemma run_main_no_store_of_phase (cfg : Config) (env : Env)
    (catalog : Except PyError (List String)) (provider : Nat → Nat → AttemptOutcome)
    (h : (∀ ev ∈ (run_fetch_phase cfg env provider).2, isStore ev = false) ∧
      (∀ p w, (run_fetch_phase cfg env provider).1 ≠ .done p w)) :
    (∀ ev ∈ (run_main cfg env catalog provider).2, isStore ev = false) ∧
    (∀ p w, (run_main cfg env catalog provider).1 ≠ .done p w) := by
  rw [run_main.eq_def]
  split
  · exact ⟨fun ev hev => by simp at hev, fun p w hh => by simp at hh⟩
  split
  case isFalse => exact ⟨fun ev hev => by simp at hev, fun p w hh => by simp at hh⟩
  case isTrue =>
    split
    case isFalse => exact h
    case isTrue =>
      cases catalog with
      | error e => exact ⟨fun ev hev => by simp at hev; subst hev; rfl,
          fun p w hh => by simp at hh⟩
      | ok syms =>
        refine ⟨fun ev hev => ?_, fun p w hh => by simpa using h.2 p w hh⟩
        rcases List.mem_cons.mp hev with rfl | hev2
        · rfl
        · exact h.1 ev hev2

/-- **C7.** If `fetch_timeframe` raises for some chunk of the requested range,
the run performs no store upsert at all and does not complete normally: rows
from earlier successful chunks are discarded, because flattening and writing
happen only after every chunk has been fetched successfully. -/
theorem fetch_failure_no_write (cfg : Config) (env : Env)
    (catalog : Except PyError (List String)) (provider : Nat → Nat → AttemptOutcome)
    (i : Nat) (hi : i < (daterange_chunks cfg.start cfg.stop cfg.batch_days).length)
    (hfail : ∀ q, (fetch_timeframe_run (provider i)).result ≠ .ok q) :
    (∀ ev ∈ (run_main cfg env catalog provider).2, isStore ev = false) ∧
    (∀ p w, (run_main cfg env catalog provider).1 ≠ .done p w) := by
  apply run_main_no_store_of_phase
  apply run_fetch_phase_no_ok
  intro rows hok
  obtain ⟨q, hq⟩ := fetch_loop_ok_all _ provider rows hok i hi
  exact hfail q hq

lemma run_store_phase_no_store (cfg : Config) (env : Env) (rows : List Row)
    (h : cfg.dry_run = true ∨ truthy env.supabase_url = false ∨
      truthy env.supabase_service_role_key = false) :
    (run_store_phase cfg env rows).2 = [] ∧
    (cfg.dry_run = false → ∀ p w, (run_store_phase cfg env rows).1 ≠ .done p w) := by
  rw [run_store_phase]
  split
  case isTrue hdry => exact ⟨rfl, fun hf => by rw [hdry] at hf; cases hf⟩
  case isFalse hdry =>
    split
    case isTrue hb =>
      rw [Bool.and_eq_true] at hb
      rcases h with h | h | h
      · exact absurd h hdry
      · rw [hb.1] at h
        cases h
      · rw [hb.2] at h
        cases h
    case isFalse hb => exact ⟨rfl, fun _ p w hh => by simp at hh⟩

lemma run_fetch_phase_no_store (cfg : Config) (env : Env)
    (provider : Nat → Nat → AttemptOutcome)
    (h : cfg.dry_run = true ∨ truthy env.supabase_url = false ∨
      truthy env.supabase_service_role_key = false) :
    (∀ ev ∈ (run_fetch_phase cfg env provider).2, isStore ev = false) ∧
    (cfg.dry_run = false → ∀ p w, (run_fetch_phase cfg env provider).1 ≠ .done p w) := by
  rw [run_fetch_phase]
  cases hl : fetch_loop provider (daterange_chunks cfg.start cfg.stop cfg.batch_days) with
  | mk res evs =>
    cases res
    case error e =>
      refine ⟨fun ev hev => ?_, fun _ p w hh => by simp at hh⟩
      exact fetch_loop_events _ provider ev (by rw [hl]; simpa using hev)
    case ok rows =>
      obtain ⟨hst2, hst1⟩ := run_store_phase_no_store cfg env rows h
      refine ⟨fun ev hev => ?_, fun hdry p w hh => hst1 hdry p w (by simpa using hh)⟩
      simp only [hst2, List.append_nil] at hev
      exact fetch_loop_events _ provider ev (by rw [hl]; simpa using hev)

lemma run_main_events_cases (cfg : Config) (env : Env)
    (catalog : Except PyError (List String)) (provider : Nat → Nat → AttemptOutcome) :
    (∀ ev ∈ (run_main cfg env catalog provider).2,
      ev = Event.catalogFetch ∨ ev ∈ (run_fetch_phase cfg env provider).2) ∧
    (∀ p w, (run_main cfg env catalog provider).1 = .done p w →
      (run_fetch_phase cfg env provider).1 = .done p w) := by
  rw [run_main.eq_def]
  split
  · exact ⟨fun ev hev => by simp at hev, fun p w hh => by simp at hh⟩
  split
  case isFalse => exact ⟨fun ev hev => by simp at hev, fun p w hh => by simp at hh⟩
  case isTrue =>
    split
    case isFalse => exact ⟨fun ev hev => Or.inr hev, fun p w hh => hh⟩
    case isTrue =>
      cases catalog with
      | error e =>
        exact ⟨fun ev hev => Or.inl (by simpa using hev), fun p w hh => by simp at hh⟩
      | ok syms =>
        refine ⟨fun ev hev => ?_, fun p w hh => by simpa using hh⟩
        rcases List.mem_cons.mp hev with rfl | hev2
        · exact Or.inl rfl
        · exact Or.inr hev2

/-- **C6 (counterexample).** With the provider API key present but
`SUPABASE_URL` absent, a (non-dry) run performs a provider fetch *before*
failing on the missing store secret — the check happens only when the store
client is first constructed, after all fetches — and a dry run with both
store secrets absent does not fail at all. -/
theorem missing_secret_startup_cex :
    (run_main ⟨0, 0, "EUR", "exchange_rates", 365, 1000, false⟩
        ⟨none, some "k", some "a"⟩ (.ok [])
        (fun _ _ => .ok [(0, [("EUR", .num 1)])])).2 = [.providerFetch 0 0] ∧
    (run_main ⟨0, 0, "EUR", "exchange_rates", 365, 1000, false⟩
        ⟨none, some "k", some "a"⟩ (.ok [])
        (fun _ _ => .ok [(0, [("EUR", .num 1)])])).1 =
      .raised (.envError
        "Set SUPABASE_URL and SUPABASE_SERVICE_ROLE_KEY in your environment or .env") ∧
    (run_main ⟨0, 0, "EUR", "exchange_rates", 365, 1000, true⟩
        ⟨none, none, some "a"⟩ (.ok [])
        (fun _ _ => .ok [(0, [("EUR", .num 1)])])).1 = .done 1 0 :=
  ⟨by decide, by decide, by decide⟩

/-- **C6 (amended).** A missing/empty provider API key is a fatal startup
error: the process exits with a readable message before any provider fetch or
store write (empty trace).  A missing/empty store secret, by contrast, only
ever fails when the store client is about to be constructed: no store upsert
is ever issued, and a non-dry run cannot complete normally — but provider
fetches may already have happened, and a dry run never checks the store
secrets at all. -/
theorem missing_secret_behavior (cfg : Config) (env : Env)
    (catalog : Except PyError (List String)) (provider : Nat → Nat → AttemptOutcome)
    (hse : cfg.start ≤ cfg.stop) :
    (truthy env.exchangerate_host_key = false →
      run_main cfg env catalog provider =
        (.exitError "Missing EXCHANGERATE_HOST_KEY in .env", [])) ∧
    ((truthy env.supabase_url = false ∨ truthy env.supabase_service_role_key = false) →
      (∀ ev ∈ (run_main cfg env catalog provider).2, isStore ev = false) ∧
      (cfg.dry_run = false →
        ∀ p w, (run_main cfg env catalog provider).1 ≠ .done p w)) := by
  constructor
  · intro hkey
    rw [run_main.eq_def, if_neg (by omega), if_neg (by simp [hkey])]
  · intro hsec
    obtain ⟨hev, hdone⟩ := run_main_events_cases cfg env catalog provider
    obtain ⟨hpev, hpdone⟩ := run_fetch_phase_no_store cfg env provider (Or.inr hsec)
    refine ⟨fun ev hevm => ?_, fun hdry p w hh => ?_⟩
    · rcases hev ev hevm with rfl | h2
      · rfl
      · exact hpev ev h2
    · exact hpdone hdry p w (hdone p w hh)

/-- Concrete instantiation of the missing-secret theorem. -/
theorem missing_secret_behavior_witness :
    run_main ⟨0, 3, "EUR", "exchange_rates", 365, 1000, false⟩
        ⟨some "u", some "k", none⟩ (.ok []) (fun _ _ => .badShape) =
      (.exitError "Missing EXCHANGERATE_HOST_KEY in .env", []) :=
  (missing_secret_behavior ⟨0, 3, "EUR", "exchange_rates", 365, 1000, false⟩
    ⟨some "u", some "k", none⟩ (.ok []) (fun _ _ => .badShape) (by decide)).1 rfl

lemma rows_of_quotes_length (q : List (Nat × List (String × Rat))) :
    (rows_of_quotes q).length = quotes_count q := by
  rw [rows_of_quotes, List.length_flatMap, quotes_count]
  simp only [Function.comp_def, List.length_map]
  exact ((List.perm_insertionSort
    (fun a b : Nat × List (String × Rat) => a.1 ≤ b.1) q).map
      (fun dq => dq.2.length)).sum_eq

lemma run_fetch_phase_done_dry (cfg : Config) (env : Env)
    (provider : Nat → Nat → AttemptOutcome) (p w : Nat)
    (hdry : cfg.dry_run = true)
    (h : (run_fetch_phase cfg env provider).1 = .done p w) :
    w = 0 ∧ p = (prepared_rows cfg provider).length := by
  rw [run_fetch_phase] at h
  cases hl : fetch_loop provider (daterange_chunks cfg.start cfg.stop cfg.batch_days) with
  | mk res evs =>
    rw [hl] at h
    cases res
    case error e => simp at h
    case ok rows =>
      have hp : prepared_rows cfg provider = rows := by
        rw [prepared_rows, hl]
      rw [hp]
      simp [run_store_phase, hdry] at h
      omega

/-- **C8.** With `dry_run` set no store call is ever made and a normally
completing run reports zero rows written and `rows_prepared` equal to the
number of accumulated rows, which per chunk is exactly the number of
(date, symbol) quote entries fetched; on the spec's end-to-end example — a
3-day range, one symbol quoted on all three days — the run reports exactly
`rows_prepared = 3`, `rows_written = 0`, and the trace holds the single
provider fetch and no store call. -/
theorem dry_run_no_store (cfg : Config) (env : Env)
    (catalog : Except PyError (List String)) (provider : Nat → Nat → AttemptOutcome)
    (hdry : cfg.dry_run = true) :
    (∀ ev ∈ (run_main cfg env catalog provider).2, isStore ev = false) ∧
    (∀ p w, (run_main cfg env catalog provider).1 = .done p w →
      w = 0 ∧ p = (prepared_rows cfg provider).length) ∧
    (∀ q, (rows_of_quotes q).length = quotes_count q) ∧
    run_main ⟨0, 2, "EUR", "exchange_rates", 365, 1000, true⟩
        ⟨some "u", some "k", some "a"⟩ (.ok [])
        (fun _ _ => .ok [(0, [("EUR", .num 1)]), (1, [("EUR", .num 1)]),
          (2, [("EUR", .num 1)])]) =
      (.done 3 0, [.providerFetch 0 2]) := by
  obtain ⟨hev, hdone⟩ := run_main_events_cases cfg env catalog provider
  obtain ⟨hpev, _⟩ := run_fetch_phase_no_store cfg env provider (Or.inl hdry)
  refine ⟨fun ev hevm => ?_, fun p w hh => ?_, rows_of_quotes_length, by decide⟩
  · rcases hev ev hevm with rfl | h2
    · rfl
    · exact hpev ev h2
  · exact run_fetch_phase_done_dry cfg env provider p w hdry (hdone p w hh)

/-- Concrete instantiation of the dry-run theorem. -/
theorem dry_run_no_store_witness :
    run_main ⟨0, 2, "EUR", "exchange_rates", 365, 1000, true⟩
        ⟨some "u", some "k", some "a"⟩ (.ok [])
        (fun _ _ => .ok [(0, [("EUR", .num 1)]), (1, [("EUR", .num 1)]),
          (2, [("EUR", .num 1)])]) =
      (.done 3 0, [.providerFetch 0 2]) :=
  (dry_run_no_store ⟨0, 2, "EUR", "exchange_rates", 365, 1000, true⟩
    ⟨some "u", some "k", some "a"⟩ (.ok [])
    (fun _ _ => .ok [(0, [("EUR", .num 1)]), (1, [("EUR", .num 1)]),
      (2, [("EUR", .num 1)])]) rfl).2.2.2

/-! ## Lemmas about natural-key uniqueness of the accumulated rows -/

lemma dict_insert_keys_nodup (d : List (String × Rat)) (k : String) (v : Rat)
    (h : (d.map Prod.fst).Nodup) : ((dict_insert d k v).map Prod.fst).Nodup := by
  rw [dict_insert]
  split
  case isTrue hmem =>
    have heq : (d.map (fun p => if p.1 = k then (k, v) else p)).map Prod.fst
        = d.map Prod.fst := by
      rw [List.map_map]
      apply List.map_congr_left
      intro p _
      by_cases hpk : p.1 = k
      · simp [hpk]
      · simp [hpk]
    rw [heq]
    exact h
  case isFalse hmem =>
    rw [List.map_append, List.nodup_append]
    refine ⟨h, List.nodup_singleton k, fun a ha hb => ?_⟩
    simp at hb
    subst hb
    exact hmem ha

lemma normalize_foldl_keys_nodup :
    ∀ (obj : List (String × JVal)) (d : List (String × Rat)),
      (d.map Prod.fst).Nodup → ((obj.foldl norm_step d).map Prod.fst).Nodup
  | [], _, h => h
  | kv :: rest, d, h => by
    rw [List.foldl_cons]
    apply normalize_foldl_keys_nodup rest
    rw [norm_step]
    split
    · exact dict_insert_keys_nodup _ _ _ h
    · exact h

lemma normalize_inner_keys_nodup (obj : List (String × JVal)) :
    ((normalize_inner obj).map Prod.fst).Nodup :=
  normalize_foldl_keys_nodup obj [] List.nodup_nil

lemma fetch_from_ok_shape (responses : Nat → AttemptOutcome) :
    ∀ (attempts sleeps : List Nat) (reqs : Nat) (q : List (Nat × List (String × Rat))),
      (fetch_from responses attempts sleeps reqs).result = .ok q →
      ∃ raw, q = normalize_quotes raw
  | [], _, _, q => by
    intro h
    simp [fetch_from] at h
  | attempt :: rest, sleeps, reqs, q => by
    intro h
    simp only [fetch_from] at h
    split at h
    · simp at h
    · split at h
      · simp at h
      · exact fetch_from_ok_shape responses rest _ _ q h
    · split at h
      · simp at h
      · exact fetch_from_ok_shape responses rest _ _ q h
    · simp at h
    · dsimp only at h
      cases h
      exact ⟨_, rfl⟩

lemma chunk_quotes_normalized (provider : Nat → Nat → AttemptOutcome) (i : Nat) :
    ∃ raw, chunk_quotes provider i = normalize_quotes raw := by
  rw [chunk_quotes]
  cases h : (fetch_timeframe_run (provider i)).result
  case ok q =>
    obtain ⟨raw, hraw⟩ := fetch_from_ok_shape (provider i) [0, 1, 2] [] 0 q h
    exact ⟨raw, hraw⟩
  case raised e => exact ⟨[], rfl⟩

lemma normalize_quotes_inner_nodup (raw : List (Nat × List (String × JVal))) :
    ∀ p ∈ normalize_quotes raw, ((p.2).map Prod.fst).Nodup := by
  intro p hp
  rw [normalize_quotes] at hp
  obtain ⟨dq, _, rfl⟩ := List.mem_map.mp hp
  exact normalize_inner_keys_nodup dq.2

lemma chunk_quotes_inner_nodup (provider : Nat → Nat → AttemptOutcome) (i : Nat) :
    ∀ p ∈ chunk_quotes provider i, ((p.2).map Prod.fst).Nodup := by
  obtain ⟨raw, hraw⟩ := chunk_quotes_normalized provider i
  rw [hraw]
  exact normalize_quotes_inner_nodup raw

lemma rows_of_quotes_mem (q : List (Nat × List (String × Rat))) (r : Row)
    (hr : r ∈ rows_of_quotes q) : ∃ di ∈ q, r.rate_date = di.1 := by
  rw [rows_of_quotes] at hr
  obtain ⟨di, hdi, hr2⟩ := List.mem_flatMap.mp hr
  obtain ⟨sr, _, rfl⟩ := List.mem_map.mp hr2
  exact ⟨di, (List.perm_insertionSort
    (fun a b : Nat × List (String × Rat) => a.1 ≤ b.1) q).subset hdi, rfl⟩

lemma rows_of_quotes_pairwise (q : List (Nat × List (String × Rat)))
    (hdates : (q.map Prod.fst).Nodup)
    (hinner : ∀ p ∈ q, ((p.2).map Prod.fst).Nodup) :
    (rows_of_quotes q).Pairwise key_distinct := by
  rw [rows_of_quotes, List.pairwise_flatMap]
  have hperm := List.perm_insertionSort
    (fun a b : Nat × List (String × Rat) => a.1 ≤ b.1) q
  constructor
  · intro di hdi
    rw [List.pairwise_map]
    have hnd : ((di.2).map Prod.fst).Nodup := hinner di (hperm.subset hdi)
    have hpw : di.2.Pairwise (fun a b => a.1 ≠ b.1) := List.pairwise_map.mp hnd
    exact hpw.imp (fun hab hk => hab hk.2.2)
  · have hd2 : ((List.insertionSort
        (fun a b : Nat × List (String × Rat) => a.1 ≤ b.1) q).map Prod.fst).Nodup :=
      (hperm.map Prod.fst).nodup_iff.mpr hdates
    have hpw2 := List.pairwise_map.mp hd2
    exact hpw2.imp (fun hab => by
      intro x hx y hy
      obtain ⟨sr, _, rfl⟩ := List.mem_map.mp hx
      obtain ⟨sr2, _, rfl⟩ := List.mem_map.mp hy
      intro hk
      exact hab hk.1)

lemma fetch_loop_mem_dates :
    ∀ (cl : List (Nat × Nat)) (provider : Nat → Nat → AttemptOutcome)
      (rows : List Row), (fetch_loop provider cl).1 = .ok rows →
      (∀ (i : Nat) (c : Nat × Nat), cl[i]? = some c →
        ∀ p ∈ chunk_quotes provider i, c.1 ≤ p.1 ∧ p.1 ≤ c.2) →
      ∀ r ∈ rows, ∃ c ∈ cl, c.1 ≤ r.rate_date ∧ r.rate_date ≤ c.2
  | [], provider, rows, h, _ => by
    simp only [fetch_loop] at h
    cases h
    intro r hr
    simp at hr
  | c :: rest, provider, rows, h, hq => by
    intro r hr
    simp only [fetch_loop] at h
    cases hres : (fetch_timeframe_run (provider 0)).result
    case raised e =>
      rw [hres] at h
      simp at h
    case ok q =>
      rw [hres] at h
      cases hl : fetch_loop (fun i => provider (i + 1)) rest with
      | mk res2 evs2 =>
        rw [hl] at h
        cases res2
        case error e => simp at h
        case ok rows2 =>
          cases h
          rcases List.mem_append.mp hr with hr1 | hr2
          · obtain ⟨di, hdi, hdate⟩ := rows_of_quotes_mem q r hr1
            have hcq : chunk_quotes provider 0 = q := by rw [chunk_quotes, hres]
            have hb := hq 0 c (by simp) di (by rw [hcq]; exact hdi)
            exact ⟨c, List.mem_cons_self _ _, by omega⟩
          · obtain ⟨c2, hc2, hb⟩ := fetch_loop_mem_dates rest
              (fun i => provider (i + 1)) rows2 (by rw [hl])
              (fun i c2 hc2 => hq (i + 1) c2 (by simpa using hc2)) r hr2
            exact ⟨c2, List.mem_cons_of_mem _ hc2, hb⟩

lemma fetch_loop_rows_pairwise :
    ∀ (cl : List (Nat × Nat)) (provider : Nat → Nat → AttemptOutcome)
      (rows : List Row), (fetch_loop provider cl).1 = .ok rows →
      cl.Pairwise (fun a b => a.2 < b.1) →
      (∀ (i : Nat) (c : Nat × Nat), cl[i]? = some c →
        ∀ p ∈ chunk_quotes provider i, c.1 ≤ p.1 ∧ p.1 ≤ c.2) →
      (∀ (i : Nat) (c : Nat × Nat), cl[i]? = some c →
        ((chunk_quotes provider i).map Prod.fst).Nodup) →
      rows.Pairwise key_distinct
  | [], provider, rows, h, _, _, _ => by
    simp only [fetch_loop] at h
    cases h
    exact List.Pairwise.nil
  | c :: rest, provider, rows, h, hpw, hq, hnd => by
    simp only [fetch_loop] at h
    cases hres : (fetch_timeframe_run (provider 0)).result
    case raised e =>
      rw [hres] at h
      simp at h
    case ok q =>
      rw [hres] at h
      cases hl : fetch_loop (fun i => provider (i + 1)) rest with
      | mk res2 evs2 =>
        rw [hl] at h
        cases res2
        case error e => simp at h
        case ok rows2 =>
          cases h
          have hcq : chunk_quotes provider 0 = q := by rw [chunk_quotes, hres]
          rw [List.pairwise_append]
          refine ⟨?_, ?_, ?_⟩
          · apply rows_of_quotes_pairwise
            · rw [← hcq]
              exact hnd 0 c (by simp)
            · rw [← hcq]
              exact chunk_quotes_inner_nodup provider 0
          · exact fetch_loop_rows_pairwise rest (fun i => provider (i + 1)) rows2
              (by rw [hl]) (List.pairwise_cons.mp hpw).2
              (fun i c2 hc2 => hq (i + 1) c2 (by simpa using hc2))
              (fun i c2 hc2 => hnd (i + 1) c2 (by simpa using hc2))
          · intro r1 hr1 r2 hr2
            obtain ⟨di, hdi, hdate⟩ := rows_of_quotes_mem q r1 hr1
            have hb1 := hq 0 c (by simp) di (by rw [hcq]; exact hdi)
            obtain ⟨c2, hc2, hb2⟩ := fetch_loop_mem_dates rest
              (fun i => provider (i + 1)) rows2 (by rw [hl])
              (fun i c2 hc2 => hq (i + 1) c2 (by simpa using hc2)) r2 hr2
            have hcc := (List.pairwise_cons.mp hpw).1 c2 hc2
            intro hk
            have hk1 := hk.1
            omega

/-- **C9.** Provided each chunk's fetched response keys dates inside that
chunk's inclusive bounds and lists each date at most once (true of a JSON
object keyed by date), the row list accumulated before any store write
contains at most one row per natural key `(rate_date, base_currency,
symbol)`: per day the normalized quotes are keyed by symbol, and distinct
chunks cover disjoint date intervals. -/
theorem accumulated_rows_key_unique (cfg : Config)
    (provider : Nat → Nat → AttemptOutcome)
    (hwithin : ∀ i : Fin (daterange_chunks cfg.start cfg.stop cfg.batch_days).length,
      ∀ p ∈ chunk_quotes provider i.val,
        ((daterange_chunks cfg.start cfg.stop cfg.batch_days).get i).1 ≤ p.1 ∧
          p.1 ≤ ((daterange_chunks cfg.start cfg.stop cfg.batch_days).get i).2)
    (hdatesnd : ∀ i : Fin (daterange_chunks cfg.start cfg.stop cfg.batch_days).length,
      ((chunk_quotes provider i.val).map Prod.fst).Nodup) :
    (prepared_rows cfg provider).Pairwise key_distinct := by
  rw [prepared_rows]
  cases hl : (fetch_loop provider (daterange_chunks cfg.start cfg.stop cfg.batch_days)).1
  case error e => exact List.Pairwise.nil
  case ok rows =>
    apply fetch_loop_rows_pairwise _ provider rows hl (chunks_go_pairwise _ _)
    · intro i c hc p hp
      obtain ⟨hlen, hget⟩ := List.getElem?_eq_some_iff.mp hc
      have hw := hwithin ⟨i, hlen⟩ p hp
      rw [List.get_eq_getElem, hget] at hw
      exact hw
    · intro i c hc
      exact hdatesnd ⟨i, (List.getElem?_eq_some_iff.mp hc).1⟩

/-- Concrete instantiation of the key-uniqueness theorem: a two-chunk run,
one quote per day. -/
theorem accumulated_rows_key_unique_witness :
    (prepared_rows ⟨0, 1, "EUR", "t", 1, 1000, true⟩
        (fun i _ => .ok [(i, [("EUR", JVal.num 1)])])).Pairwise key_distinct :=
  accumulated_rows_key_unique ⟨0, 1, "EUR", "t", 1, 1000, true⟩
    (fun i _ => .ok [(i, [("EUR", JVal.num 1)])]) (by decide) (by decide)

/-- Concrete instantiation of the fetch-failure theorem. -/
theorem fetch_failure_no_write_witness :
    ((run_main ⟨0, 0, "EUR", "exchange_rates", 365, 1000, false⟩
        ⟨some "u", some "k", some "a"⟩ (.ok [])
        (fun _ _ => .apiError "rate limit")).1 ≠ Outcome.done 0 0) :=
  (fetch_failure_no_write ⟨0, 0, "EUR", "exchange_rates", 365, 1000, false⟩
    ⟨some "u", some "k", some "a"⟩ (.ok []) (fun _ _ => .apiError "rate limit")
    0 (by decide)
    (fun q h => by simp [fetch_timeframe_run, fetch_from] at h)).2 0 0

end FetchUsd

